import Mathlib

/-!
Shallow embedding of the concurrency/caching/pagination core of the
cubeclient library (src/cubeclient/utils.py, src/cubeclient/models.py,
src/cubeclient/endpoints.py), together with theorems settling the frozen
claims about it.

Python-specific semantics that matter here are modelled explicitly:
list indexing accepts negative indices (counting from the end) and raises
IndexError outside the valid range; dict deletion of an absent key raises
KeyError; dict assignment overwrites.
-/

/-! ### Python list primitives -/

/-- Normalise a Python list index of a list of length `n`: negative indices
count from the end; `none` means the index is irrecoverably negative
(IndexError before any bounds check against the upper end). -/
def pyNorm (n : Nat) (i : Int) : Option Nat :=
  if i < 0 then
    if i + n < 0 then none else some (i + n).toNat
  else
    some i.toNat

/-- Python `xs[i]` for reading: `none` is an IndexError. -/
def pyGet (xs : List α) (i : Int) : Option α :=
  match pyNorm xs.length i with
  | none => none
  | some m => xs[m]?

/-- Python `xs[i] = v`: `none` is an IndexError. -/
def pySet (xs : List α) (i : Int) (v : α) : Option (List α) :=
  match pyNorm xs.length i with
  | none => none
  | some m => if m < xs.length then some (xs.set m v) else none

/-- Python slice assignment `xs[a : a + len(new)] = new` for a non-negative
start offset `a`. -/
def pySliceAssign (xs : List α) (a : Nat) (new : List α) : List α :=
  xs.take a ++ new ++ xs.drop (a + new.length)

/-! ### Association lists standing in for Python dicts -/

/-- Dict lookup, `none` when the key is absent. -/
def alookup [DecidableEq κ] : List (κ × β) → κ → Option β
  | [], _ => none
  | (k, v) :: rest, key => if key = k then some v else alookup rest key

/-- Python `del d[key]` removes the sole entry for the key (keys are unique
in the states this development reaches). -/
def aremove [DecidableEq κ] : List (κ × β) → κ → List (κ × β)
  | [], _ => []
  | (k, v) :: rest, key => if key = k then rest else (k, v) :: aremove rest key

/-- Python `d[key] = v`: overwrite the existing entry or add a new one. -/
def aupdate [DecidableEq κ] : List (κ × β) → κ → β → List (κ × β)
  | [], key, v => [(key, v)]
  | (k, v0) :: rest, key, v =>
    if key = k then (key, v) :: rest else (k, v0) :: aupdate rest key v

/-! ### models.DynamicPaginatedResponse

The endpoint collaborator is a function from (offset, limit) to a raw page
payload `{count, results}`, or a transport failure `ε`.  The serializer
maps a raw record `ρ` to an entity `R`.  A slot of the sequence is
`Option R`: `none` is Python `None`, i.e. unresolved.  `log` records every
endpoint call issued, in order, for fetch-count reasoning. -/

structure PageResponse (ρ : Type) where
  count : Nat
  results : List ρ
deriving DecidableEq

/-- Errors surfaced by sequence operations: an out-of-range index access is
distinct from a transport failure of the endpoint. -/
inductive PyErr (ε : Type) where
  | indexError
  | transport (e : ε)
deriving DecidableEq

structure DynamicPaginatedResponse (ρ R ε : Type) where
  endpoint : Int → Nat → Except ε (PageResponse ρ)
  serializer : ρ → R
  limit : Nat
  count : Nat
  items : List (Option R)
  log : List (Int × Nat)

/-- The body of `DynamicPaginatedResponse._fetch_page`: walk the serialized
results, and for each consecutive position starting at `i`, fill the slot
only if it is still `None`; an IndexError on the slot read breaks the loop. -/
def fillSlots (items : List (Option R)) (i : Int) : List R → List (Option R)
  | [] => items
  | r :: rest =>
    match pyGet items i with
    | none => items
    | some none => fillSlots ((pySet items i (some r)).getD items) (i + 1) rest
    | some (some _) => fillSlots items (i + 1) rest

/-- `DynamicPaginatedResponse.__init__`: one immediate page fetch learns the
count, allocates `count` unresolved slots and slice-assigns the first page
in at `offset`. -/
def mkDyn (endpoint : Int → Nat → Except ε (PageResponse ρ)) (serializer : ρ → R)
    (offset : Nat) (limit : Nat) : Except ε (DynamicPaginatedResponse ρ R ε) :=
  match endpoint offset limit with
  | .error e => .error e
  | .ok resp =>
    .ok { endpoint := endpoint
          serializer := serializer
          limit := limit
          count := resp.count
          items := pySliceAssign (List.replicate resp.count (none : Option R)) offset
            (resp.results.map (fun r => some (serializer r)))
          log := [((offset : Int), limit)] }

/-- `DynamicPaginatedResponse._fetch_page(index)`: call the endpoint at
`(index, limit)` and merge the serialized results into still-unresolved
slots starting at `index`. -/
def fetchPage (d : DynamicPaginatedResponse ρ R ε) (index : Int) :
    Except ε (DynamicPaginatedResponse ρ R ε) :=
  match d.endpoint index d.limit with
  | .error e => .error e
  | .ok resp =>
    .ok { d with
          items := fillSlots d.items index (resp.results.map d.serializer)
          log := d.log ++ [(index, d.limit)] }

/-- `DynamicPaginatedResponse.__getitem__(index)`: read the slot (Python
index semantics), fetch a page at `index` when it is unresolved, and return
the re-read slot. -/
def getItem (d : DynamicPaginatedResponse ρ R ε) (index : Int) :
    Except (PyErr ε) (DynamicPaginatedResponse ρ R ε × Option R) :=
  match pyGet d.items index with
  | none => .error .indexError
  | some (some r) => .ok (d, some r)
  | some none =>
    match fetchPage d index with
    | .error e => .error (.transport e)
    | .ok d2 =>
      match pyGet d2.items index with
      | none => .error .indexError
      | some v => .ok (d2, v)

/-- `DynamicPaginatedResponse.__iter__` unrolled from position `i` with the
number of remaining positions as fuel: yield resolved slots, fetch a page at
each unresolved position and yield the re-read slot. -/
def iterFrom (d : DynamicPaginatedResponse ρ R ε) (i : Nat) :
    Nat → Except (PyErr ε) (DynamicPaginatedResponse ρ R ε × List (Option R))
  | 0 => .ok (d, [])
  | n + 1 =>
    match d.items[i]? with
    | none => .ok (d, [])
    | some (some r) =>
      match iterFrom d (i + 1) n with
      | .error e => .error e
      | .ok (d2, l) => .ok (d2, some r :: l)
    | some none =>
      match fetchPage d i with
      | .error e => .error (.transport e)
      | .ok d2 =>
        match iterFrom d2 (i + 1) n with
        | .error e => .error e
        | .ok (d3, l) => .ok (d3, d2.items.getD i none :: l)

/-- A full pass of `DynamicPaginatedResponse.__iter__`. -/
def iterAll (d : DynamicPaginatedResponse ρ R ε) :
    Except (PyErr ε) (DynamicPaginatedResponse ρ R ε × List (Option R)) :=
  iterFrom d 0 d.items.length

/-- Observable data of a sequence state (the function fields carry no
run-time state). -/
def dynData (d : DynamicPaginatedResponse ρ R ε) :
    Nat × List (Option R) × List (Int × Nat) :=
  (d.count, d.items, d.log)

/-- Observable outcome of an indexed access: `none` when it raised. -/
def opData : Except (PyErr ε) (DynamicPaginatedResponse ρ R ε × Option R) →
    Option ((Nat × List (Option R) × List (Int × Nat)) × Option R)
  | .error _ => none
  | .ok (d, v) => some (dynData d, v)

/-- Observable outcome of an iteration pass: `none` when it raised. -/
def iterData : Except (PyErr ε) (DynamicPaginatedResponse ρ R ε × List (Option R)) →
    Option ((Nat × List (Option R) × List (Int × Nat)) × List (Option R))
  | .error _ => none
  | .ok (d, l) => some (dynData d, l)

/-! ### utils.EventWithValue / utils.TaskAwaiter

The single-flight register.  Events live in an arena indexed by allocation
order; an event id is its arena index, so a freshly constructed event has
an id no earlier state ever allocated.  `value` starts as Python `None`. -/

structure EventWithValue (κ V : Type) where
  key : κ
  value : Option V
  isSet : Bool
deriving DecidableEq

structure TaskAwaiter (κ V : Type) where
  map : List (κ × Nat)
  events : List (EventWithValue κ V)
deriving DecidableEq

/-- `TaskAwaiter.get_condition(key)`: under the register lock, return the
existing event with `in_progress = True`, or atomically create, register
and return a fresh event with `in_progress = False`. -/
def getCondition [DecidableEq κ] (s : TaskAwaiter κ V) (key : κ) :
    TaskAwaiter κ V × Nat × Bool :=
  match alookup s.map key with
  | some eid => (s, eid, true)
  | none =>
    let eid := s.events.length
    ({ map := (key, eid) :: s.map
       events := s.events ++ [⟨key, none, false⟩] }, eid, false)

/-- `TaskAwaiter.del_key(key)`: under the register lock, `del` the entry;
`none` is the KeyError Python raises when the key is absent. -/
def delKey [DecidableEq κ] (s : TaskAwaiter κ V) (key : κ) :
    Option (TaskAwaiter κ V) :=
  match alookup s.map key with
  | none => none
  | some _ => some { s with map := aremove s.map key }

/-- Write the value slot of event `eid` (the first statement of
`EventWithValue.set_value`). -/
def writeEventValue (events : List (EventWithValue κ V)) (eid : Nat) (v : V) :
    List (EventWithValue κ V) :=
  match events[eid]? with
  | none => events
  | some ev => events.set eid { ev with value := some v }

/-- Mark event `eid` as set (the `threading.Event.set` at the end of
`EventWithValue.set_value`). -/
def markEventSet (events : List (EventWithValue κ V)) (eid : Nat) :
    List (EventWithValue κ V) :=
  match events[eid]? with
  | none => events
  | some ev => events.set eid { ev with isSet := true }

/-- `EventWithValue.set_value(value)`: assign the value slot, then
`del_key` the event's key from the register, then fire the event.  The
returned flag is `true` when a KeyError was raised by the deletion; in
that case the value slot has already been overwritten, the register is
unchanged and the event is not fired. -/
def setValue [DecidableEq κ] (s : TaskAwaiter κ V) (eid : Nat) (v : V) :
    TaskAwaiter κ V × Bool :=
  let s1 : TaskAwaiter κ V := { s with events := writeEventValue s.events eid v }
  match s1.events[eid]? with
  | none => (s1, true)
  | some ev =>
    match delKey s1 ev.key with
    | none => (s1, true)
    | some s2 => ({ s2 with events := markEventSet s2.events eid }, false)

/-- Results of `n` successive `get_condition(key)` calls with no
intervening completion, threading the register state. -/
def gcSeq [DecidableEq κ] (s : TaskAwaiter κ V) (key : κ) :
    Nat → TaskAwaiter κ V × List Bool
  | 0 => (s, [])
  | n + 1 =>
    let r := getCondition s key
    let rest := gcSeq r.1 key n
    (rest.1, r.2.2 :: rest.2)

/-! ### endpoints.AsyncNativeApiClient managed-release path

An interleaving semantics for threads running `_get_release_managed`.
A fetched release is observed as the pair (release id, global fetch
sequence number), so two distinct underlying fetches yield distinguishable
instances.  The fetch oracle `fetchOk` says whether the n-th fetch
succeeds or raises.  Each `Phase` is the thread's position between the
atomic steps of `_get_release_managed`:

* `start`: about to run `get_release_managed_noblock` (cache lock);
* `gotMiss`: cache missed, about to run `get_condition` (register lock);
* `fetching eid`: designated producer, `self._wrapping.release(...)` in
  flight;
* `inserting eid r`: fetch returned `r`, about to insert into the cache
  (cache lock);
* `publishing eid r`: about to run `event.set_value(r)`;
* `waiting eid`: `event.wait()`, runnable only once the event is set;
* `done r`: returned `r`;
* `raised`: an exception propagated out of the call. -/

abbrev Release := Nat × Nat

inductive Phase where
  | start
  | gotMiss
  | fetching (eid : Nat)
  | inserting (eid : Nat) (r : Release)
  | publishing (eid : Nat) (r : Release)
  | waiting (eid : Nat)
  | done (r : Option Release)
  | raised
deriving DecidableEq

structure FThread where
  rid : Nat
  phase : Phase
deriving DecidableEq

structure FState where
  cache : List (Nat × Release)
  ta : TaskAwaiter Nat Release
  fetchCount : Nat
  threads : List FThread
deriving DecidableEq

/-- `AsyncNativeApiClient.get_release_managed_noblock(release_id)`: under
the cache lock alone, the cached release when present, else `None`. -/
def get_release_managed_noblock (s : FState) (rid : Nat) : Option Release :=
  alookup s.cache rid

/-- The phase a thread moves to right after its no-block cache check:
done with the cached release on a hit, the miss path otherwise. -/
def noblockPhase : Option Release → Phase
  | some r => .done (some r)
  | none => .gotMiss

/-- One atomic step of thread `i`; `none` when the thread does not exist,
is finished, or is blocked on an unset event. -/
def stepThread (fetchOk : Nat → Bool) (s : FState) (i : Nat) : Option FState :=
  match s.threads[i]? with
  | none => none
  | some th =>
    match th.phase with
    | .start =>
      match get_release_managed_noblock s th.rid with
      | some r => some { s with threads := s.threads.set i { th with phase := .done (some r) } }
      | none => some { s with threads := s.threads.set i { th with phase := .gotMiss } }
    | .gotMiss =>
      let r := getCondition s.ta th.rid
      if r.2.2 then
        some { s with ta := r.1, threads := s.threads.set i { th with phase := .waiting r.2.1 } }
      else
        some { s with ta := r.1, threads := s.threads.set i { th with phase := .fetching r.2.1 } }
    | .fetching eid =>
      if fetchOk s.fetchCount then
        some { s with fetchCount := s.fetchCount + 1,
                      threads := s.threads.set i
                        { th with phase := .inserting eid (th.rid, s.fetchCount) } }
      else
        some { s with fetchCount := s.fetchCount + 1,
                      threads := s.threads.set i { th with phase := .raised } }
    | .inserting eid r =>
      some { s with cache := aupdate s.cache th.rid r,
                    threads := s.threads.set i { th with phase := .publishing eid r } }
    | .publishing eid r =>
      let p := setValue s.ta eid r
      if p.2 then
        some { s with ta := p.1, threads := s.threads.set i { th with phase := .raised } }
      else
        some { s with ta := p.1, threads := s.threads.set i { th with phase := .done (some r) } }
    | .waiting eid =>
      match s.ta.events[eid]? with
      | none => none
      | some ev =>
        if ev.isSet then
          some { s with threads := s.threads.set i { th with phase := .done ev.value } }
        else
          none
    | .done _ => none
    | .raised => none

/-- The facade state in which each listed caller is about to run
`_get_release_managed` for its release id, with empty cache and register. -/
def initFState (rids : List Nat) : FState :=
  { cache := [], ta := ⟨[], []⟩, fetchCount := 0,
    threads := rids.map (fun rid => ⟨rid, .start⟩) }

/-- Run a schedule: at each entry, the named thread takes its next atomic
step; `none` when a scheduled thread has no enabled step. -/
def runTrace (fetchOk : Nat → Bool) (s : FState) : List Nat → Option FState
  | [] => some s
  | i :: rest =>
    match stepThread fetchOk s i with
    | none => none
    | some s2 => runTrace fetchOk s2 rest

/-- States reachable from `initFState rids` by interleaved atomic steps. -/
inductive Reach (fetchOk : Nat → Bool) (rids : List Nat) : FState → Prop where
  | init : Reach fetchOk rids (initFState rids)
  | step {s s2 : FState} {i : Nat} (h : Reach fetchOk rids s)
      (hs : stepThread fetchOk s i = some s2) : Reach fetchOk rids s2

/-- The event id a thread holds while it is the designated producer (from
`get_condition` returning `in_progress = False` until its `set_value`). -/
def producerEvent : Phase → Option Nat
  | .fetching eid => some eid
  | .inserting eid _ => some eid
  | .publishing eid _ => some eid
  | _ => none

/-- Well-formedness of the single-flight register: keys are unique, and
every registered event id denotes an allocated event carrying that key. -/
def RegWF (ta : TaskAwaiter Nat Release) : Prop :=
  (ta.map.map Prod.fst).Nodup
  ∧ ∀ (k e : Nat), alookup ta.map k = some e →
      ∃ ev, ta.events[e]? = some ev ∧ ev.key = k

/-- Every published event value is a release of the event's own key. -/
def EventsWF (ta : TaskAwaiter Nat Release) : Prop :=
  ∀ (e : Nat) (ev : EventWithValue Nat Release) (r : Release),
    ta.events[e]? = some ev → ev.value = some r → r.1 = ev.key

/-- Every cached release is stored under its own id. -/
def CacheWF (cache : List (Nat × Release)) : Prop :=
  ∀ (k : Nat) (r : Release), alookup cache k = some r → r.1 = k

/-- The release a thread is carrying belongs to the thread's id. -/
def PhaseVal (rid : Nat) : Phase → Prop
  | .inserting _ r => r.1 = rid
  | .publishing _ r => r.1 = rid
  | .done (some r) => r.1 = rid
  | _ => True

/-- Per-thread invariant: a designated producer holds a registered,
allocated event for its id; a waiter waits on an allocated event keyed by
its id; and any carried release has the thread's id. -/
def ThreadOK (ta : TaskAwaiter Nat Release) (th : FThread) : Prop :=
  (∀ (e : Nat), producerEvent th.phase = some e →
      alookup ta.map th.rid = some e ∧ e < ta.events.length)
  ∧ (∀ (e : Nat), th.phase = .waiting e →
      ∃ ev, ta.events[e]? = some ev ∧ ev.key = th.rid)
  ∧ PhaseVal th.rid th.phase

/-- Distinct threads in the producer region hold distinct events. -/
def DistinctProducers (threads : List FThread) : Prop :=
  ∀ (i j : Nat) (thi thj : FThread) (ei ej : Nat),
    threads[i]? = some thi → threads[j]? = some thj →
    producerEvent thi.phase = some ei → producerEvent thj.phase = some ej →
    i ≠ j → ei ≠ ej

/-- The inductive invariant of the managed-release facade. -/
def FInv (s : FState) : Prop :=
  RegWF s.ta ∧ EventsWF s.ta ∧ CacheWF s.cache
  ∧ (∀ (i : Nat) (th : FThread), s.threads[i]? = some th → ThreadOK s.ta th)
  ∧ DistinctProducers s.threads

/-! ### endpoints._AsyncMeta / AsyncNativeApiClient wrapper generation

The synchronous contract is the dict of the facade's last base class: an
association of operation names to an is-abstract flag.  The metaclass
generates, for every abstract operation not in the exclusion list, a
wrapper that submits the same-named operation of the wrapped synchronous
client to the worker pool and returns a promise over the submitted future.
A worker-pool future and the promise resolved from it are modelled by the
outcome they eventually settle to: the synchronous call's return value, or
its raised failure. -/

/-- The exclusion list hard-coded on `_AsyncMeta`. -/
def asyncExcluded : List String := ["host", "db", "token", "user", "logout"]

/-- The closure generated by `_AsyncMeta._wrap(name)`, as data: it records
the name it dispatches to on the wrapped client. -/
structure Wrapped where
  target : String
deriving DecidableEq

/-- The attribute table built by `_AsyncMeta.__new__`: one wrapper per
abstract contract operation whose name is not excluded. -/
def genAttributes (contract : List (String × Bool)) : List (String × Wrapped) :=
  (contract.filter (fun p => p.2 && !(decide (p.1 ∈ asyncExcluded)))).map
    (fun p => (p.1, ⟨p.1⟩))

/-- A synchronous client: every named operation maps an argument list to a
return value or a raised failure. -/
structure SyncClient (ε V : Type) where
  call : String → List V → Except ε V

/-- `ThreadPoolExecutor.submit`: the future's eventual outcome is the
outcome of running the job on a worker thread. -/
def submitToPool (job : Unit → Except ε V) : Except ε V :=
  job ()

/-- `Promise.resolve` on a worker-pool future: the promise resolves with
the future's value and rejects with its raised failure. -/
def promiseResolve (fut : Except ε V) : Except ε V :=
  fut

/-- The body of a generated wrapper: submit the same-named synchronous
call with the given arguments to the pool, and return the promise of the
future. -/
def wrappedInvoke (c : SyncClient ε V) (w : Wrapped) (args : List V) : Except ε V :=
  promiseResolve (submitToPool (fun _ => c.call w.target args))

/-- Invoke operation `name` on the async facade built over contract
`contract` wrapping client `c`: `none` when no wrapper was generated. -/
def asyncInvoke (contract : List (String × Bool)) (c : SyncClient ε V)
    (name : String) (args : List V) : Option (Except ε V) :=
  (alookup (genAttributes contract) name).map (fun w => wrappedInvoke c w args)

/-! ### endpoints.BaseNativeApiClient.versioned_cubes memoization

A paginated response instance is observed as the (offset, limit) it was
built with plus a freshness tag (the endpoint request counter at its
construction), so two distinct fetches yield distinguishable instances.
`fetches` counts endpoint requests; `_get_paginated_response` issues
exactly one immediate request in both concrete clients. -/

structure PagedHandle where
  offset : Nat
  limit : Nat
  tag : Nat
deriving DecidableEq

structure VCState where
  stored : Option PagedHandle
  fetches : Nat
deriving DecidableEq

/-- `BaseNativeApiClient.__init__` leaves `_versioned_cubes = None`. -/
def vcInit : VCState := ⟨none, 0⟩

/-- `BaseNativeApiClient.versioned_cubes(offset, limit, cached)`: return
the stored response when one exists and `cached` is set; otherwise fetch a
fresh response, store it and return it. -/
def versioned_cubes (s : VCState) (offset limit : Nat) (cached : Bool) :
    PagedHandle × VCState :=
  match s.stored, cached with
  | some p, true => (p, s)
  | _, _ =>
    let p : PagedHandle := ⟨offset, limit, s.fetches⟩
    (p, ⟨some p, s.fetches + 1⟩)

/-- A run of `versioned_cubes` calls with `cached = True`, collecting the
returned responses. -/
def vcRunCached (s : VCState) : List (Nat × Nat) → List PagedHandle × VCState
  | [] => ([], s)
  | (o, l) :: rest =>
    let r := versioned_cubes s o l true
    let q := vcRunCached r.2 rest
    (r.1 :: q.1, q.2)

/-! ### models.RemoteModel equality and hashing

A remote model is observed as its class, its id and its remaining loaded
content.  `sub c1 c2` says a value of class `c1` is an instance of class
`c2` (Python `isinstance` through the subclass relation); `idHash` is
Python `hash` on ids. -/

structure RemoteModel (Cls ι γ : Type) where
  cls : Cls
  id : ι
  content : γ

/-- Python `isinstance(x, c)`. -/
def instanceOf (sub : Cls → Cls → Bool) (x : RemoteModel Cls ι γ) (c : Cls) : Bool :=
  sub x.cls c

/-- `RemoteModel.__eq__`: `isinstance(other, self.__class__) and self._id
== other._id`. -/
def rmEq [DecidableEq ι] (sub : Cls → Cls → Bool)
    (x y : RemoteModel Cls ι γ) : Bool :=
  instanceOf sub y x.cls && decide (x.id = y.id)

/-- `RemoteModel.__hash__`: `hash(self._id)`. -/
def rmHash (idHash : ι → Int) (x : RemoteModel Cls ι γ) : Int :=
  idHash x.id

/-! ### Concrete scenario instances -/

/-- A 25-element remote collection of the naturals 0..24 behind a standard
offset/limit endpoint (results are the slice `[offset, offset + limit)`),
never failing. -/
def c6endpoint : Int → Nat → Except Unit (PageResponse Nat) :=
  fun o l => .ok ⟨25, ((List.range 25).drop o.toNat).take l⟩

/-- Fallback sequence value for unreachable match arms of the concrete
scenarios. -/
def dummyDyn : DynamicPaginatedResponse Nat Nat Unit :=
  { endpoint := c6endpoint, serializer := id, limit := 0, count := 0,
    items := [], log := [] }

/-- The sequence of the end-to-end scenario: `count = 25`, `limit = 10`,
constructed at offset 0. -/
def c6d0 : DynamicPaginatedResponse Nat Nat Unit :=
  match mkDyn c6endpoint id 0 10 with
  | .ok d => d
  | .error _ => dummyDyn

/-- The scenario sequence after `get(0)`. -/
def c6d1 : DynamicPaginatedResponse Nat Nat Unit :=
  match getItem c6d0 0 with
  | .ok (d, _) => d
  | .error _ => dummyDyn

/-- The scenario sequence after `get(0)` then `get(23)`. -/
def c6d2 : DynamicPaginatedResponse Nat Nat Unit :=
  match getItem c6d1 23 with
  | .ok (d, _) => d
  | .error _ => dummyDyn

/-- A one-element remote collection holding the single entity `5`. -/
def c4endpoint : Int → Nat → Except Unit (PageResponse Nat) :=
  fun o _ => .ok ⟨1, if o = 0 then [5] else []⟩

/-- A sequence constructed with `count = 1`, its only slot resolved by the
construction-time page fetch. -/
def c4d : DynamicPaginatedResponse Nat Nat Unit :=
  match mkDyn c4endpoint id 0 10 with
  | .ok d => d
  | .error _ => dummyDyn

/-- Register after a first `get_condition(7)` created event 0. -/
def c8reg1 : TaskAwaiter Nat Nat := (getCondition (⟨[], []⟩ : TaskAwaiter Nat Nat) 7).1

/-- Register after event 0 published the value 10 (key 7 deregistered). -/
def c8reg2 : TaskAwaiter Nat Nat := (setValue c8reg1 0 10).1

/-- Register after a later `get_condition(7)` re-registered key 7 with the
fresh event 1. -/
def c8reg3 : TaskAwaiter Nat Nat := (getCondition c8reg2 7).1

/-! ### Association list lemmas -/

theorem alookup_eq_none_iff [DecidableEq κ] (l : List (κ × β)) (k : κ) :
    alookup l k = none ↔ k ∉ l.map Prod.fst := by
  induction l with
  | nil => simp [alookup]
  | cons hd tl ih =>
    obtain ⟨k0, v0⟩ := hd
    by_cases h : k = k0 <;> simp [alookup, h, ih]

theorem alookup_aupdate [DecidableEq κ] (l : List (κ × β)) (k k2 : κ) (v : β) :
    alookup (aupdate l k v) k2 = if k2 = k then some v else alookup l k2 := by
  induction l with
  | nil => by_cases h : k2 = k <;> simp [aupdate, alookup, h]
  | cons hd tl ih =>
    obtain ⟨k0, v0⟩ := hd
    by_cases h0 : k = k0
    · subst h0
      by_cases h : k2 = k <;> simp [aupdate, alookup, h]
    · by_cases h : k2 = k
      · subst h
        simp [aupdate, alookup, h0, if_neg h0, ih]
      · by_cases h2 : k2 = k0 <;>
          simp [aupdate, alookup, h0, h, h2, ih, if_neg (Ne.symm h0)]

theorem aremove_sublist [DecidableEq κ] (l : List (κ × β)) (k : κ) :
    (aremove l k).Sublist l := by
  induction l with
  | nil => simp [aremove]
  | cons hd tl ih =>
    obtain ⟨k0, v0⟩ := hd
    by_cases h : k = k0
    · simp [aremove, h]
    · simpa [aremove, h] using ih.cons₂ (k0, v0)

theorem nodup_aremove [DecidableEq κ] (l : List (κ × β)) (k : κ)
    (hnd : (l.map Prod.fst).Nodup) : ((aremove l k).map Prod.fst).Nodup :=
  ((aremove_sublist l k).map Prod.fst).nodup hnd

theorem alookup_aremove_ne [DecidableEq κ] (l : List (κ × β)) (k k2 : κ)
    (h : k2 ≠ k) : alookup (aremove l k) k2 = alookup l k2 := by
  induction l with
  | nil => simp [aremove]
  | cons hd tl ih =>
    obtain ⟨k0, v0⟩ := hd
    by_cases h0 : k = k0
    · subst h0
      simp [aremove, alookup, h]
    · by_cases h2 : k2 = k0 <;> simp [aremove, alookup, h0, h2, ih]

theorem alookup_aremove_self [DecidableEq κ] (l : List (κ × β)) (k : κ)
    (hnd : (l.map Prod.fst).Nodup) : alookup (aremove l k) k = none := by
  induction l with
  | nil => simp [aremove, alookup]
  | cons hd tl ih =>
    obtain ⟨k0, v0⟩ := hd
    simp only [List.map_cons, List.nodup_cons] at hnd
    by_cases h : k = k0
    · subst h
      simp only [aremove, if_pos rfl]
      exact (alookup_eq_none_iff tl k).mpr hnd.1
    · simp [aremove, alookup, h, ih hnd.2]

/-! ### Claim C10: RemoteModel equality and hashing -/

/-- C10: for all remote models `x` and `y`, `x == y` holds exactly when `y`
is an instance of `x`'s class and the ids agree; `hash(x) = hash(x.id)`;
hence equal models have equal hashes, and equality ignores every field
other than the id. -/
theorem remote_model_eq_hash {Cls ι γ : Type} [DecidableEq ι]
    (sub : Cls → Cls → Bool) (idHash : ι → Int) (x y : RemoteModel Cls ι γ) :
    (rmEq sub x y = true ↔ (instanceOf sub y x.cls = true ∧ x.id = y.id))
    ∧ rmHash idHash x = idHash x.id
    ∧ (rmEq sub x y = true → rmHash idHash x = rmHash idHash y)
    ∧ (∀ (c : Cls) (i : ι) (g g2 : γ), sub c c = true →
        rmEq sub (⟨c, i, g⟩ : RemoteModel Cls ι γ) ⟨c, i, g2⟩ = true) := by
  refine ⟨by simp [rmEq], rfl, ?_, ?_⟩
  · intro h
    have hid : instanceOf sub y x.cls = true ∧ x.id = y.id := by
      simpa [rmEq] using h
    simp [rmHash, hid.2]
  · intro c i g g2 hc
    simp [rmEq, instanceOf, hc]

/-- Witness for C10: two models of the same class with the same id but
different content compare equal and hash alike. -/
theorem remote_model_eq_hash_witness :
    rmEq (fun a b : Nat => a == b) (⟨0, 3, 5⟩ : RemoteModel Nat Nat Nat) ⟨0, 3, 9⟩ = true
    ∧ rmHash Int.ofNat (⟨0, 3, 5⟩ : RemoteModel Nat Nat Nat) =
        rmHash Int.ofNat (⟨0, 3, 9⟩ : RemoteModel Nat Nat Nat) := by
  have h := remote_model_eq_hash (fun a b : Nat => a == b) Int.ofNat
    (⟨0, 3, 5⟩ : RemoteModel Nat Nat Nat) ⟨0, 3, 9⟩
  have he := h.2.2.2 0 3 5 9 (by decide)
  exact ⟨he, h.2.2.1 he⟩

/-! ### Claim C9: versioned_cubes memoization -/

/-- C9: once a response is stored, every `cached = True` call returns the
identical stored response with no endpoint request, whatever offset and
limit it asks for; a `cached = False` call always fetches afresh and
replaces the stored response; the first call stores what it returns. -/
theorem versioned_cubes_memoized (s : VCState) (p : PagedHandle) :
    (s.stored = some p → ∀ o l, versioned_cubes s o l true = (p, s))
    ∧ (∀ o l, versioned_cubes s o l false =
        (⟨o, l, s.fetches⟩, ⟨some ⟨o, l, s.fetches⟩, s.fetches + 1⟩))
    ∧ (∀ o l c, (versioned_cubes vcInit o l c).2.stored =
        some (versioned_cubes vcInit o l c).1)
    ∧ (s.stored = some p → ∀ calls,
        vcRunCached s calls = (calls.map (fun _ => p), s)) := by
  refine ⟨?_, ?_, ?_, ?_⟩
  · intro hs o l
    simp [versioned_cubes, hs]
  · intro o l
    cases hs : s.stored <;> simp [versioned_cubes, hs]
  · intro o l c
    cases c <;> simp [versioned_cubes, vcInit]
  · intro hs calls
    induction calls with
    | nil => simp [vcRunCached]
    | cons hd tl ih =>
      obtain ⟨o, l⟩ := hd
      simp [vcRunCached, versioned_cubes, hs, ih]

/-- Witness for C9: with the response of a first fetch stored, two further
cached calls with different offsets and limits both return it and leave
the state alone. -/
theorem versioned_cubes_memoized_witness :
    vcRunCached ⟨some ⟨0, 10, 0⟩, 1⟩ [(3, 7), (50, 2)] =
      ([⟨0, 10, 0⟩, ⟨0, 10, 0⟩], ⟨some ⟨0, 10, 0⟩, 1⟩) := by
  have h := versioned_cubes_memoized ⟨some ⟨0, 10, 0⟩, 1⟩ ⟨0, 10, 0⟩
  simpa using h.2.2.2 rfl [(3, 7), (50, 2)]

/-! ### Claim C7: mechanically generated async wrappers -/

theorem alookup_genAttributes (contract : List (String × Bool)) (name : String)
    (h1 : alookup contract name = some true)
    (h2 : name ∉ asyncExcluded) :
    alookup (genAttributes contract) name = some ⟨name⟩ := by
  induction contract with
  | nil => simp [alookup] at h1
  | cons hd tl ih =>
    obtain ⟨k0, b0⟩ := hd
    by_cases h : name = k0
    · subst h
      have hb : b0 = true := by simpa [alookup] using h1
      subst hb
      simp [genAttributes, List.filter_cons, h2, alookup]
    · have h1t : alookup tl name = some true := by simpa [alookup, h] using h1
      have ht := ih h1t
      simp only [genAttributes] at ht ⊢
      rcases Bool.eq_false_or_eq_true (b0 && !(decide (k0 ∈ asyncExcluded))) with hc | hc
      · simp [List.filter_cons, hc, alookup, h, ht]
      · simp [List.filter_cons, hc, ht]

/-- C7: for every abstract contract operation not in the exclusion list,
the generated wrapper exists and, on any arguments, yields a promise whose
outcome is exactly the outcome of the same-named synchronous call: it
resolves to the synchronous return value and rejects with the synchronous
failure. -/
theorem async_facade_delegates {ε V : Type} (contract : List (String × Bool))
    (c : SyncClient ε V) (name : String) (args : List V)
    (habs : alookup contract name = some true)
    (hexcl : name ∉ asyncExcluded) :
    asyncInvoke contract c name args = some (c.call name args)
    ∧ (∀ v, c.call name args = .ok v → asyncInvoke contract c name args = some (.ok v))
    ∧ (∀ e, c.call name args = .error e →
        asyncInvoke contract c name args = some (.error e)) := by
  have hmain : asyncInvoke contract c name args = some (c.call name args) := by
    unfold asyncInvoke
    rw [alookup_genAttributes contract name habs hexcl]
    rfl
  refine ⟨hmain, ?_, ?_⟩
  · intro v hv
    rw [hmain, hv]
  · intro e he
    rw [hmain, he]

/-- Witness for C7: over a contract with abstract operations, an excluded
accessor and a non-abstract helper, the wrapper of a succeeding operation
resolves to its value, and the wrapper of a failing operation rejects with
its failure. -/
theorem async_facade_delegates_witness :
    asyncInvoke [("db_info", true), ("login", true), ("host", true), ("helper", false)]
      (⟨fun n _ => if n = "db_info" then .ok 42 else .error 9⟩ : SyncClient Nat Nat)
      "db_info" [] = some (.ok 42)
    ∧ asyncInvoke [("db_info", true), ("login", true), ("host", true), ("helper", false)]
      (⟨fun n _ => if n = "db_info" then .ok 42 else .error 9⟩ : SyncClient Nat Nat)
      "login" [0] = some (.error 9) := by
  constructor
  · have h := async_facade_delegates
      [("db_info", true), ("login", true), ("host", true), ("helper", false)]
      (⟨fun n _ => if n = "db_info" then .ok 42 else .error 9⟩ : SyncClient Nat Nat)
      "db_info" [] (by decide) (by decide)
    exact h.2.1 42 rfl
  · have h := async_facade_delegates
      [("db_info", true), ("login", true), ("host", true), ("helper", false)]
      (⟨fun n _ => if n = "db_info" then .ok 42 else .error 9⟩ : SyncClient Nat Nat)
      "login" [0] (by decide) (by decide)
    exact h.2.2 9 rfl

/-! ### Claim C2: get_condition single-flight discipline -/

theorem gcSeq_present {κ V : Type} [DecidableEq κ] (s : TaskAwaiter κ V)
    (key : κ) (eid : Nat) (h : alookup s.map key = some eid) (n : Nat) :
    gcSeq s key n = (s, List.replicate n true) := by
  induction n with
  | zero => simp [gcSeq]
  | succ n ih => simp [gcSeq, getCondition, h, ih, List.replicate_succ]

theorem setValue_registered_eq {κ V : Type} [DecidableEq κ]
    (s : TaskAwaiter κ V) (key : κ) (eid : Nat) (ev : EventWithValue κ V) (v : V)
    (hm : alookup s.map key = some eid)
    (hev : s.events[eid]? = some ev) (hk : ev.key = key) :
    setValue s eid v =
      ({ map := aremove s.map key
         events := markEventSet (s.events.set eid { ev with value := some v }) eid },
       false) := by
  subst hk
  have hlt : eid < s.events.length := by
    rcases List.getElem?_eq_some_iff.mp hev with ⟨h, _⟩
    exact h
  have hw : writeEventValue s.events eid v = s.events.set eid { ev with value := some v } := by
    simp [writeEventValue, hev]
  have h1get : (s.events.set eid { ev with value := some v })[eid]? =
      some { ev with value := some v } := List.getElem?_set_self hlt
  simp only [setValue, hw, h1get, delKey, hm]

/-- C2: `get_condition(key)` returns `in_progress = False` exactly when no
entry exists, in which case it atomically registers a fresh, unset,
never-before-allocated event; with an entry present it returns the
existing event, `in_progress = True`, and changes nothing, so among any
number of calls with no intervening completion exactly the first returns
`False`; and `set_value` removes the key, so a call issued after the
completed computation again returns `False` with a fresh event. -/
theorem get_condition_single_flight {κ V : Type} [DecidableEq κ]
    (s : TaskAwaiter κ V) (key : κ) :
    ((getCondition s key).2.2 = false ↔ alookup s.map key = none)
    ∧ (∀ eid, alookup s.map key = some eid → getCondition s key = (s, eid, true))
    ∧ (alookup s.map key = none →
        (getCondition s key).2.1 = s.events.length
        ∧ s.events[s.events.length]? = none
        ∧ (getCondition s key).1.events[s.events.length]? =
            some ⟨key, none, false⟩
        ∧ alookup (getCondition s key).1.map key = some s.events.length)
    ∧ (alookup s.map key = none → ∀ n,
        (gcSeq s key (n + 1)).2 = false :: List.replicate n true)
    ∧ (∀ eid ev v, alookup s.map key = some eid →
        (s.map.map Prod.fst).Nodup →
        s.events[eid]? = some ev → ev.key = key →
        (setValue s eid v).2 = false
        ∧ alookup (setValue s eid v).1.map key = none
        ∧ (getCondition (setValue s eid v).1 key).2.2 = false
        ∧ (getCondition (setValue s eid v).1 key).2.1 = s.events.length
        ∧ (getCondition (setValue s eid v).1 key).2.1 ≠ eid) := by
  refine ⟨?_, ?_, ?_, ?_, ?_⟩
  · cases h : alookup s.map key <;> simp [getCondition, h]
  · intro eid h
    simp [getCondition, h]
  · intro h
    refine ⟨by simp [getCondition, h], List.getElem?_len_le le_rfl, ?_, ?_⟩
    · simp [getCondition, h, List.getElem?_concat_length]
    · simp [getCondition, h, alookup]
  · intro h n
    have hfirst : getCondition s key =
        ({ map := (key, s.events.length) :: s.map
           events := s.events ++ [⟨key, none, false⟩] }, s.events.length, false) := by
      simp [getCondition, h]
    have hreg : alookup ((key, s.events.length) :: s.map) key = some s.events.length := by
      simp [alookup]
    simp [gcSeq, hfirst,
      gcSeq_present
        { map := (key, s.events.length) :: s.map
          events := s.events ++ [⟨key, none, false⟩] } key s.events.length hreg n]
  · intro eid ev v hm hnd hev hk
    have hlt : eid < s.events.length := by
      rcases List.getElem?_eq_some_iff.mp hev with ⟨h, _⟩
      exact h
    have heq := setValue_registered_eq s key eid ev v hm hev hk
    have hnone : alookup (aremove s.map key) key = none :=
      alookup_aremove_self s.map key hnd
    have h1get : (s.events.set eid { ev with value := some v })[eid]? =
        some { ev with value := some v } := List.getElem?_set_self hlt
    have hlen : (markEventSet (s.events.set eid { ev with value := some v }) eid).length =
        s.events.length := by
      simp [markEventSet, h1get]
    refine ⟨by simp [heq], by simp [heq, hnone], ?_, ?_, ?_⟩
    · simp [heq, getCondition, hnone]
    · simp [heq, getCondition, hnone, hlen]
    · simp only [heq, getCondition, hnone]
      simpa [hlen] using Nat.ne_of_gt hlt

/-- Witness for C2: on an empty register `get_condition(7)` reports not in
progress; with key 7 registered to event 0, publishing on event 0 raises
nothing, deregisters the key, and a later `get_condition(7)` again reports
not in progress. -/
theorem get_condition_single_flight_witness :
    (getCondition (⟨[], []⟩ : TaskAwaiter Nat Nat) 7).2.2 = false
    ∧ (setValue (⟨[(7, 0)], [⟨7, none, false⟩]⟩ : TaskAwaiter Nat Nat) 0 42).2 = false
    ∧ (getCondition
        (setValue (⟨[(7, 0)], [⟨7, none, false⟩]⟩ : TaskAwaiter Nat Nat) 0 42).1 7).2.2 =
      false := by
  have h1 := get_condition_single_flight (⟨[], []⟩ : TaskAwaiter Nat Nat) 7
  have h2 := get_condition_single_flight (⟨[(7, 0)], [⟨7, none, false⟩]⟩ : TaskAwaiter Nat Nat) 7
  have h5 := h2.2.2.2.2 0 ⟨7, none, false⟩ 42 (by decide) (by decide) (by decide) rfl
  exact ⟨h1.1.mpr (by decide), h5.1, h5.2.2.1⟩

/-! ### Claim C8: duplicate publication on a single-flight handle -/

/-- C8 counterexample: event 0 is obtained for key 7 with
`in_progress = False` and completes a first `set_value`; after an
intervening `get_condition(7)` re-registers the key with the fresh event 1,
a second `set_value` on event 0 raises no error at all — it silently
removes the register entry of the new in-flight event 1. -/
theorem set_value_duplicate_silent :
    (getCondition (⟨[], []⟩ : TaskAwaiter Nat Nat) 7).2 = (0, false)
    ∧ (setValue c8reg1 0 10).2 = false
    ∧ (getCondition c8reg2 7).2 = (1, false)
    ∧ (setValue c8reg3 0 11).2 = false
    ∧ (setValue c8reg3 0 11).1.map = [] := by
  decide

/-- C8 as amended: a second `set_value` on a completed handle raises a
KeyError provided its key is (still) absent from the register, i.e. no
intervening `get_condition` re-registered it; the value slot is
nonetheless overwritten before the error, and the register is unchanged. -/
theorem set_value_duplicate_raises {κ V : Type} [DecidableEq κ]
    (s : TaskAwaiter κ V) (eid : Nat) (ev : EventWithValue κ V) (v : V)
    (hev : s.events[eid]? = some ev)
    (habs : alookup s.map ev.key = none) :
    (setValue s eid v).2 = true
    ∧ (setValue s eid v).1.map = s.map
    ∧ (setValue s eid v).1.events[eid]? = some { ev with value := some v } := by
  have hlt : eid < s.events.length := by
    rcases List.getElem?_eq_some_iff.mp hev with ⟨h, _⟩
    exact h
  have hw : writeEventValue s.events eid v = s.events.set eid { ev with value := some v } := by
    simp [writeEventValue, hev]
  have h1get : (s.events.set eid { ev with value := some v })[eid]? =
      some { ev with value := some v } := List.getElem?_set_self hlt
  simp [setValue, hw, h1get, delKey, habs]

/-- Witness for C8: after event 0 for key 7 has published once and key 7
was not re-registered, a second `set_value` on event 0 raises KeyError. -/
theorem set_value_duplicate_raises_witness :
    (setValue c8reg2 0 11).2 = true ∧ (setValue c8reg2 0 11).1.map = [] := by
  have h := set_value_duplicate_raises c8reg2 0 ⟨7, some 10, true⟩ 11 (by decide) (by decide)
  refine ⟨h.1, ?_⟩
  have h2 := h.2.1
  simpa using h2

/-! ### Claims C4 and C5: paged sequence bounds and idempotent fill -/

theorem pyGet_elim {α : Type} (items : List α) (i : Int) (v : α)
    (h : pyGet items i = some v) :
    ∃ m, pyNorm items.length i = some m ∧ m < items.length ∧ items[m]? = some v
    ∧ ∀ w, pySet items i w = some (items.set m w) := by
  unfold pyGet at h
  cases hn : pyNorm items.length i with
  | none => rw [hn] at h; exact absurd h (by simp)
  | some m =>
    rw [hn] at h
    have hlt : m < items.length := by
      rcases List.getElem?_eq_some_iff.mp h with ⟨h2, _⟩
      exact h2
    exact ⟨m, rfl, hlt, h, fun w => by simp [pySet, hn, hlt]⟩

theorem fillSlots_preserves {R : Type} (rs : List R) (items : List (Option R))
    (i : Int) (k : Nat) (r : R) (hk : items[k]? = some (some r)) :
    (fillSlots items i rs)[k]? = some (some r) := by
  induction rs generalizing items i with
  | nil => simpa [fillSlots] using hk
  | cons hd tl ih =>
    rw [fillSlots]
    cases hp : pyGet items i with
    | none => simpa using hk
    | some v =>
      cases v with
      | some rv => exact ih items (i + 1) hk
      | none =>
        rcases pyGet_elim items i none hp with ⟨m, _, _, hmv, hset⟩
        have hmk : m ≠ k := by
          intro he
          rw [he, hk] at hmv
          exact absurd hmv (by simp)
        rw [hset (some hd)]
        simp only [Option.getD_some]
        exact ih _ (i + 1) (by rw [List.getElem?_set_ne hmk]; exact hk)

theorem fetchPage_preserves {ρ R ε : Type} (d d2 : DynamicPaginatedResponse ρ R ε)
    (i : Int) (k : Nat) (r : R) (hk : d.items[k]? = some (some r))
    (h : fetchPage d i = .ok d2) : d2.items[k]? = some (some r) := by
  unfold fetchPage at h
  cases he : d.endpoint i d.limit with
  | error e => rw [he] at h; exact absurd h (by simp)
  | ok resp =>
    rw [he] at h
    have h2 : d2 = { d with
        items := fillSlots d.items i (resp.results.map d.serializer)
        log := d.log ++ [(i, d.limit)] } := by
      cases h
      rfl
    rw [h2]
    exact fillSlots_preserves _ d.items i k r hk

/-- C5: a resolved slot is never overwritten by any later operation: every
page fetch preserves it with the same entity, every indexed access leaves
it intact in the resulting state, and reading the resolved slot itself
returns the same entity with the sequence unchanged, so repeated reads
agree. -/
theorem dyn_resolved_slot_stable {ρ R ε : Type}
    (d : DynamicPaginatedResponse ρ R ε) (k : Nat) (r : R)
    (hk : d.items[k]? = some (some r)) :
    (∀ (i : Int) (d2 : DynamicPaginatedResponse ρ R ε),
        fetchPage d i = .ok d2 → d2.items[k]? = some (some r))
    ∧ (∀ (j : Int) (d2 : DynamicPaginatedResponse ρ R ε) (v : Option R),
        getItem d j = .ok (d2, v) → d2.items[k]? = some (some r))
    ∧ getItem d (k : Int) = .ok (d, some r) := by
  refine ⟨fun i d2 h => fetchPage_preserves d d2 i k r hk h, ?_, ?_⟩
  · intro j d2 v h
    unfold getItem at h
    cases hp : pyGet d.items j with
    | none => rw [hp] at h; exact absurd h (by simp)
    | some w =>
      rw [hp] at h
      cases w with
      | some rv =>
        simp only [Except.ok.injEq, Prod.mk.injEq] at h
        rw [← h.1]
        exact hk
      | none =>
        cases hf : fetchPage d j with
        | error e => rw [hf] at h; exact absurd h (by simp)
        | ok d3 =>
          rw [hf] at h
          simp only at h
          have h3 := fetchPage_preserves d d3 j k r hk hf
          cases hp2 : pyGet d3.items j with
          | none => rw [hp2] at h; exact absurd h (by simp)
          | some v2 =>
            rw [hp2] at h
            simp only [Except.ok.injEq, Prod.mk.injEq] at h
            rw [← h.1]
            exact h3
  · have hp : pyGet d.items (k : Int) = some (some r) := by
      simp [pyGet, pyNorm]
      exact hk
    unfold getItem
    rw [hp]

/-- Witness for C5: on the concrete count-25 sequence, slot 3 is resolved
to the entity 3 after construction; the overlapping access `get(23)`
leaves it at 3, and `get(3)` returns 3 with the sequence unchanged. -/
theorem dyn_resolved_slot_stable_witness :
    c6d2.items[3]? = some (some 3)
    ∧ getItem c6d1 (3 : Int) = .ok (c6d1, some 3) := by
  have hk : c6d1.items[3]? = some (some 3) := by decide
  have h := dyn_resolved_slot_stable c6d1 3 3 hk
  exact ⟨h.2.1 23 c6d2 (some 23) rfl, h.2.2⟩

/-- C4 counterexample: on a sequence constructed with `count = 1` whose
single slot is resolved, `get(-1)` does not raise an out-of-range error:
it returns the last entity by Python negative indexing. -/
theorem dyn_get_neg_one_no_error :
    opData (getItem c4d (-1)) = some ((1, [some 5], [((0 : Int), 10)]), some 5)
    ∧ opData (getItem c4d 1) = none := by
  refine ⟨?_, ?_⟩ <;> decide

/-- C4 as amended: `get(i)` raises IndexError exactly outside Python's
valid index range `-count ≤ i < count`; in particular `get(count)` raises
for every count, while `get(-1)` raises only for `count = 0` — for
`count ≥ 1` it addresses the last slot (Python negative indexing) and,
when that slot is resolved, returns its entity without error. -/
theorem dyn_get_bounds {ρ R ε : Type} (d : DynamicPaginatedResponse ρ R ε)
    (h : d.items.length = d.count) :
    (∀ i : Int, (d.count : Int) ≤ i → getItem d i = .error .indexError)
    ∧ getItem d (d.count : Int) = .error .indexError
    ∧ (∀ i : Int, i < -(d.count : Int) → getItem d i = .error .indexError)
    ∧ (d.count = 0 → getItem d (-1) = .error .indexError)
    ∧ (∀ r : R, 0 < d.count → d.items[d.count - 1]? = some (some r) →
        getItem d (-1) = .ok (d, some r)) := by
  have hhi : ∀ i : Int, (d.count : Int) ≤ i → getItem d i = .error .indexError := by
    intro i hi
    have h0 : ¬(i < 0) := by omega
    have hlen : d.items.length ≤ i.toNat := by omega
    have hget : pyGet d.items i = none := by
      simp [pyGet, pyNorm, h0, List.getElem?_len_le hlen]
    unfold getItem
    rw [hget]
  have hlo : ∀ i : Int, i < -(d.count : Int) → getItem d i = .error .indexError := by
    intro i hi
    have h0 : i < 0 := by omega
    have h1 : i + d.items.length < 0 := by omega
    have hget : pyGet d.items i = none := by
      simp only [pyGet, pyNorm, if_pos h0, if_pos h1]
    unfold getItem
    rw [hget]
  refine ⟨hhi, hhi _ le_rfl, hlo, ?_, ?_⟩
  · intro hc
    exact hlo (-1) (by omega)
  · intro r hpos hr
    have h0 : (-1 : Int) < 0 := by omega
    have h1 : ¬((-1 : Int) + d.items.length < 0) := by omega
    have hm : ((-1 : Int) + d.items.length).toNat = d.count - 1 := by omega
    have hget : pyGet d.items (-1) = some (some r) := by
      simp only [pyGet, pyNorm, if_pos h0, if_neg h1, hm]
      exact hr
    unfold getItem
    rw [hget]

/-- Witness for C4 as amended: on the concrete one-element sequence,
`get(1)` and `get(-2)` raise IndexError, and `get(-1)` returns the
resolved last entity. -/
theorem dyn_get_bounds_witness :
    getItem c4d (1 : Int) = .error .indexError
    ∧ getItem c4d (-2) = .error .indexError
    ∧ getItem c4d (-1) = .ok (c4d, some 5) := by
  have h := dyn_get_bounds c4d (by decide)
  exact ⟨h.2.1, h.2.2.1 (-2) (by decide), h.2.2.2.2 5 (by decide) (by decide)⟩

/-! ### Claim C6: the count-25 / limit-10 end-to-end scenario -/

/-- C6 counterexample: on the count-25, limit-10 sequence, after `get(0)`
and `get(23)` the slots 20, 21 and 22 are still unresolved — the fetch at
offset 23 returned only the 2 items 23 and 24, not 5 — and the subsequent
full iteration issues two further endpoint calls (at offsets 10 and 20),
not one, for a total of 4 logged calls. -/
theorem dyn_scenario_claim_false :
    c6d2.items[20]? = some none
    ∧ c6d2.items[21]? = some none
    ∧ c6d2.items[22]? = some none
    ∧ c6d2.log = [((0 : Int), 10), ((23 : Int), 10)]
    ∧ (iterData (iterAll c6d2)).map (fun p => p.1.2.2.length) = some 4 := by
  refine ⟨?_, ?_, ?_, ?_, ?_⟩ <;> decide

/-- C6 as amended: constructing the count-25, limit-10 sequence fetches
page (0, 10) and fills slots 0-9; `get(0)` returns entity 0 with no new
call; `get(23)` calls the endpoint at offset 23, receives the 2 remaining
items and fills exactly slots 23 and 24, leaving 10-22 unresolved; a full
iteration thereafter issues exactly two more endpoint calls, at offsets 10
and 20, filling the rest without touching resolved slots, and yields all
25 entities in index order. -/
theorem dyn_scenario_count25 :
    dynData c6d0 =
      (25, (List.range 10).map some ++ List.replicate 15 none, [((0 : Int), 10)])
    ∧ opData (getItem c6d0 0) = some (dynData c6d0, some 0)
    ∧ opData (getItem c6d1 23) =
        some ((25, (List.range 10).map some ++ List.replicate 13 none ++
                [some 23, some 24], [((0 : Int), 10), ((23 : Int), 10)]), some 23)
    ∧ iterData (iterAll c6d2) =
        some ((25, (List.range 25).map some,
               [((0 : Int), 10), ((23 : Int), 10), ((10 : Int), 10), ((20 : Int), 10)]),
              (List.range 25).map some) := by
  refine ⟨?_, ?_, ?_, ?_⟩
  · decide
  · decide
  · decide
  · rfl

/-! ### Claims C1 and C3: the managed-release facade -/

theorem markEventSet_length {κ V : Type} (events : List (EventWithValue κ V)) (eid : Nat) :
    (markEventSet events eid).length = events.length := by
  unfold markEventSet
  cases h : events[eid]? <;> simp

theorem markEventSet_getElem_ne {κ V : Type} (events : List (EventWithValue κ V))
    (eid e : Nat) (h : eid ≠ e) : (markEventSet events eid)[e]? = events[e]? := by
  unfold markEventSet
  cases h2 : events[eid]? with
  | none => rfl
  | some ev => exact List.getElem?_set_ne h

theorem markEventSet_getElem_self {κ V : Type} (events : List (EventWithValue κ V))
    (eid : Nat) (ev : EventWithValue κ V) (h : events[eid]? = some ev) :
    (markEventSet events eid)[eid]? = some { ev with isSet := true } := by
  have hlt : eid < events.length := by
    rcases List.getElem?_eq_some_iff.mp h with ⟨h2, _⟩
    exact h2
  unfold markEventSet
  rw [h]
  exact List.getElem?_set_self hlt

theorem FInv_update (s : FState) (i : Nat) (th th2 : FThread)
    (cache2 : List (Nat × Release)) (n : Nat)
    (hth : s.threads[i]? = some th)
    (hI : FInv s)
    (hOK : ThreadOK s.ta th2)
    (hpe : producerEvent th2.phase = none
      ∨ producerEvent th2.phase = producerEvent th.phase)
    (hc : CacheWF cache2) :
    FInv { cache := cache2, ta := s.ta, fetchCount := n,
           threads := s.threads.set i th2 } := by
  obtain ⟨hreg, hev, _, hthreads, hdist⟩ := hI
  have hlt : i < s.threads.length := by
    rcases List.getElem?_eq_some_iff.mp hth with ⟨h2, _⟩
    exact h2
  refine ⟨hreg, hev, hc, ?_, ?_⟩
  · intro j th3 hj
    by_cases hji : j = i
    · subst hji
      rw [List.getElem?_set_self hlt] at hj
      cases hj
      exact hOK
    · rw [List.getElem?_set_ne (fun he => hji he.symm)] at hj
      exact hthreads j th3 hj
  · intro a b tha thb ea eb ha hb hea heb hab
    by_cases hai : a = i
    · subst hai
      rw [List.getElem?_set_self hlt] at ha
      cases ha
      rcases hpe with hnone | hsame
      · rw [hnone] at hea
        exact absurd hea (by simp)
      · rw [hsame] at hea
        by_cases hbi : b = a
        · exact absurd hbi.symm hab
        · rw [List.getElem?_set_ne (fun he => hbi he.symm)] at hb
          exact hdist a b th thb ea eb hth hb hea heb hab
    · rw [List.getElem?_set_ne (fun he => hai he.symm)] at ha
      by_cases hbi : b = i
      · subst hbi
        rw [List.getElem?_set_self hlt] at hb
        cases hb
        rcases hpe with hnone | hsame
        · rw [hnone] at heb
          exact absurd heb (by simp)
        · rw [hsame] at heb
          exact hdist a b tha th ea eb ha hth hea heb hab
      · rw [List.getElem?_set_ne (fun he => hbi he.symm)] at hb
        exact hdist a b tha thb ea eb ha hb hea heb hab

theorem FInv_init (rids : List Nat) : FInv (initFState rids) := by
  refine ⟨⟨by simp [initFState], ?_⟩, ?_, ?_, ?_, ?_⟩
  · intro k e h
    simp [initFState, alookup] at h
  · intro e ev r h
    simp [initFState] at h
  · intro k r h
    simp [initFState, alookup] at h
  · intro i th h
    simp only [initFState, List.getElem?_map] at h
    cases hr : rids[i]? with
    | none => rw [hr] at h; exact absurd h (by simp)
    | some rid =>
      rw [hr] at h
      simp at h
      subst h
      exact ⟨fun e he => absurd he (by simp [producerEvent]),
             fun e he => absurd he (by simp),
             trivial⟩
  · intro a b tha thb ea eb ha hb hea heb hab
    simp only [initFState, List.getElem?_map] at ha
    cases hr : rids[a]? with
    | none => rw [hr] at ha; exact absurd ha (by simp)
    | some rid =>
      rw [hr] at ha
      simp at ha
      subst ha
      exact absurd hea (by simp [producerEvent])

theorem FInv_step (fetchOk : Nat → Bool) (s s2 : FState) (i : Nat)
    (hs : stepThread fetchOk s i = some s2) (hI : FInv s) : FInv s2 := by
  obtain ⟨hreg, hev, hcache, hthreads, hdist⟩ := hI
  cases hth : s.threads[i]? with
  | none =>
    unfold stepThread at hs
    rw [hth] at hs
    exact absurd hs (by simp)
  | some th =>
    have hthOK := hthreads i th hth
    cases hph : th.phase with
    | start =>
      cases hc : alookup s.cache th.rid with
      | some r =>
        have hstep : stepThread fetchOk s i =
            some { s with threads := s.threads.set i { th with phase := .done (some r) } } := by
          unfold stepThread
          rw [hth]
          simp [hph, get_release_managed_noblock, hc]
        rw [hstep] at hs
        injection hs with hs2
        subst hs2
        exact FInv_update s i th _ s.cache s.fetchCount hth
          ⟨hreg, hev, hcache, hthreads, hdist⟩
          ⟨fun e he => absurd he (by simp [producerEvent]),
           fun e he => absurd he (by simp),
           hcache th.rid r hc⟩
          (Or.inl rfl) hcache
      | none =>
        have hstep : stepThread fetchOk s i =
            some { s with threads := s.threads.set i { th with phase := .gotMiss } } := by
          unfold stepThread
          rw [hth]
          simp [hph, get_release_managed_noblock, hc]
        rw [hstep] at hs
        injection hs with hs2
        subst hs2
        exact FInv_update s i th _ s.cache s.fetchCount hth
          ⟨hreg, hev, hcache, hthreads, hdist⟩
          ⟨fun e he => absurd he (by simp [producerEvent]),
           fun e he => absurd he (by simp),
           trivial⟩
          (Or.inl rfl) hcache
    | gotMiss =>
      cases halk : alookup s.ta.map th.rid with
      | some e =>
        have hgc : getCondition s.ta th.rid = (s.ta, e, true) := by
          simp [getCondition, halk]
        have hstep : stepThread fetchOk s i =
            some { s with threads := s.threads.set i { th with phase := .waiting e } } := by
          unfold stepThread
          rw [hth]
          simp [hph, hgc]
        rw [hstep] at hs
        injection hs with hs2
        subst hs2
        exact FInv_update s i th _ s.cache s.fetchCount hth
          ⟨hreg, hev, hcache, hthreads, hdist⟩
          ⟨fun e2 he => absurd he (by simp [producerEvent]),
           fun e2 he => by
             have he2 : e = e2 := by simpa using he
             subst he2
             exact hreg.2 th.rid e halk,
           trivial⟩
          (Or.inl rfl) hcache
      | none =>
        have hgc : getCondition s.ta th.rid =
            ({ map := (th.rid, s.ta.events.length) :: s.ta.map
               events := s.ta.events ++ [⟨th.rid, none, false⟩] },
             s.ta.events.length, false) := by
          simp [getCondition, halk]
        have hstep : stepThread fetchOk s i =
            some { s with
                   ta := { map := (th.rid, s.ta.events.length) :: s.ta.map
                           events := s.ta.events ++ [⟨th.rid, none, false⟩] }
                   threads := s.threads.set i
                     { th with phase := .fetching s.ta.events.length } } := by
          unfold stepThread
          rw [hth]
          simp [hph, hgc]
        rw [hstep] at hs
        injection hs with hs2
        subst hs2
        have hlt : i < s.threads.length := by
          rcases List.getElem?_eq_some_iff.mp hth with ⟨h2, _⟩
          exact h2
        have hgapp : ∀ (e : Nat), e < s.ta.events.length →
            (s.ta.events ++ [(⟨th.rid, none, false⟩ : EventWithValue Nat Release)])[e]? =
              s.ta.events[e]? := fun e he => List.getElem?_append_left he
        have hglen : (s.ta.events ++
              [(⟨th.rid, none, false⟩ : EventWithValue Nat Release)])[s.ta.events.length]? =
            some ⟨th.rid, none, false⟩ := List.getElem?_concat_length _ _
        have hnotmem : th.rid ∉ s.ta.map.map Prod.fst :=
          (alookup_eq_none_iff s.ta.map th.rid).mp halk
        refine ⟨⟨?_, ?_⟩, ?_, hcache, ?_, ?_⟩
        · simp only [List.map_cons]
          exact List.nodup_cons.mpr ⟨hnotmem, hreg.1⟩
        · intro k e hk
          by_cases hkr : k = th.rid
          · subst hkr
            have he : s.ta.events.length = e := by
              simpa [alookup] using hk
            subst he
            exact ⟨⟨th.rid, none, false⟩, hglen, rfl⟩
          · have hk2 : alookup s.ta.map k = some e := by
              simpa [alookup, hkr] using hk
            obtain ⟨ev2, hg2, hkey2⟩ := hreg.2 k e hk2
            have he : e < s.ta.events.length := by
              rcases List.getElem?_eq_some_iff.mp hg2 with ⟨h2, _⟩
              exact h2
            exact ⟨ev2, by rw [hgapp e he]; exact hg2, hkey2⟩
        · intro e ev2 r2 hg hv
          by_cases he : e < s.ta.events.length
          · rw [hgapp e he] at hg
            exact hev e ev2 r2 hg hv
          · have hb : e < s.ta.events.length + 1 := by
              rcases List.getElem?_eq_some_iff.mp hg with ⟨h2, _⟩
              simpa using h2
            have he2 : e = s.ta.events.length := by omega
            subst he2
            rw [hglen] at hg
            injection hg with hg2
            rw [← hg2] at hv
            exact absurd hv (by simp)
        · intro j th3 hj
          by_cases hji : j = i
          · subst hji
            rw [List.getElem?_set_self hlt] at hj
            cases hj
            refine ⟨?_, ?_, trivial⟩
            · intro e he
              have he2 : s.ta.events.length = e := by
                simpa [producerEvent] using he
              subst he2
              exact ⟨by simp [alookup], by simp⟩
            · intro e he
              exact absurd he (by simp)
          · rw [List.getElem?_set_ne (fun he => hji he.symm)] at hj
            have h3 := hthreads j th3 hj
            refine ⟨?_, ?_, h3.2.2⟩
            · intro e he
              obtain ⟨halk3, hlt3⟩ := h3.1 e he
              have hne : th3.rid ≠ th.rid := by
                intro hcon
                rw [hcon, halk] at halk3
                exact absurd halk3 (by simp)
              constructor
              · simpa [alookup, hne] using halk3
              · simp only [List.length_append, List.length_singleton]
                omega
            · intro e he
              obtain ⟨ev3, hg3, hk3⟩ := h3.2.1 e he
              have he3 : e < s.ta.events.length := by
                rcases List.getElem?_eq_some_iff.mp hg3 with ⟨h2, _⟩
                exact h2
              exact ⟨ev3, by rw [hgapp e he3]; exact hg3, hk3⟩
        · intro a b tha thb ea eb ha hb hea heb hab
          by_cases hai : a = i
          · subst hai
            rw [List.getElem?_set_self hlt] at ha
            cases ha
            have hea2 : s.ta.events.length = ea := by
              simpa [producerEvent] using hea
            subst hea2
            by_cases hbi : b = a
            · exact absurd hbi.symm hab
            · rw [List.getElem?_set_ne (fun he => hbi he.symm)] at hb
              obtain ⟨_, hltb⟩ := (hthreads b thb hb).1 eb heb
              omega
          · rw [List.getElem?_set_ne (fun he => hai he.symm)] at ha
            by_cases hbi : b = i
            · subst hbi
              rw [List.getElem?_set_self hlt] at hb
              cases hb
              have heb2 : s.ta.events.length = eb := by
                simpa [producerEvent] using heb
              subst heb2
              obtain ⟨_, hlta⟩ := (hthreads a tha ha).1 ea hea
              omega
            · rw [List.getElem?_set_ne (fun he => hbi he.symm)] at hb
              exact hdist a b tha thb ea eb ha hb hea heb hab
    | fetching eid =>
      cases hf : fetchOk s.fetchCount with
      | true =>
        have hstep : stepThread fetchOk s i =
            some { s with fetchCount := s.fetchCount + 1
                          threads := s.threads.set i
                            { th with phase := .inserting eid (th.rid, s.fetchCount) } } := by
          unfold stepThread
          rw [hth]
          simp [hph, hf]
        rw [hstep] at hs
        injection hs with hs2
        subst hs2
        exact FInv_update s i th _ s.cache (s.fetchCount + 1) hth
          ⟨hreg, hev, hcache, hthreads, hdist⟩
          ⟨fun e he => by
             have he2 : eid = e := by simpa [producerEvent] using he
             subst he2
             exact hthOK.1 eid (by rw [hph]; rfl),
           fun e he => absurd he (by simp),
           rfl⟩
          (Or.inr (by simp [producerEvent, hph])) hcache
      | false =>
        have hstep : stepThread fetchOk s i =
            some { s with fetchCount := s.fetchCount + 1
                          threads := s.threads.set i { th with phase := .raised } } := by
          unfold stepThread
          rw [hth]
          simp [hph, hf]
        rw [hstep] at hs
        injection hs with hs2
        subst hs2
        exact FInv_update s i th _ s.cache (s.fetchCount + 1) hth
          ⟨hreg, hev, hcache, hthreads, hdist⟩
          ⟨fun e he => absurd he (by simp [producerEvent]),
           fun e he => absurd he (by simp),
           trivial⟩
          (Or.inl rfl) hcache
    | inserting eid r =>
      have hr1 : r.1 = th.rid := by
        have h2 := hthOK.2.2
        rw [hph] at h2
        exact h2
      have hstep : stepThread fetchOk s i =
          some { s with cache := aupdate s.cache th.rid r
                        threads := s.threads.set i
                          { th with phase := .publishing eid r } } := by
        unfold stepThread
        rw [hth]
        simp [hph]
      rw [hstep] at hs
      injection hs with hs2
      subst hs2
      have hc2 : CacheWF (aupdate s.cache th.rid r) := by
        intro k r2 hk
        rw [alookup_aupdate] at hk
        by_cases hkr : k = th.rid
        · rw [if_pos hkr] at hk
          injection hk with hk2
          rw [← hk2, hr1, hkr]
        · rw [if_neg hkr] at hk
          exact hcache k r2 hk
      exact FInv_update s i th _ (aupdate s.cache th.rid r) s.fetchCount hth
        ⟨hreg, hev, hcache, hthreads, hdist⟩
        ⟨fun e he => by
           have he2 : eid = e := by simpa [producerEvent] using he
           subst he2
           exact hthOK.1 eid (by rw [hph]; rfl),
         fun e he => absurd he (by simp),
         hr1⟩
        (Or.inr (by simp [producerEvent, hph])) hc2
    | publishing eid r =>
      obtain ⟨halk, hlen⟩ := hthOK.1 eid (by rw [hph]; rfl)
      obtain ⟨ev, hevg, hevk⟩ := hreg.2 th.rid eid halk
      have hr1 : r.1 = th.rid := by
        have h2 := hthOK.2.2
        rw [hph] at h2
        exact h2
      have hsv := setValue_registered_eq s.ta th.rid eid ev r halk hevg hevk
      have hstep : stepThread fetchOk s i =
          some { s with
                 ta := { map := aremove s.ta.map th.rid
                         events := markEventSet
                           (s.ta.events.set eid { ev with value := some r }) eid }
                 threads := s.threads.set i { th with phase := .done (some r) } } := by
        unfold stepThread
        rw [hth]
        simp [hph, hsv]
      rw [hstep] at hs
      injection hs with hs2
      subst hs2
      have hlt : i < s.threads.length := by
        rcases List.getElem?_eq_some_iff.mp hth with ⟨h2, _⟩
        exact h2
      have hsetlen : (s.ta.events.set eid { ev with value := some r }).length =
          s.ta.events.length := by simp
      have hset1 : (s.ta.events.set eid { ev with value := some r })[eid]? =
          some { ev with value := some r } := List.getElem?_set_self (by simpa using hlen)
      have hg2self : (markEventSet (s.ta.events.set eid { ev with value := some r }) eid)[eid]? =
          some ⟨ev.key, some r, true⟩ :=
        markEventSet_getElem_self _ eid { ev with value := some r } hset1
      have hg2ne : ∀ (e : Nat), e ≠ eid →
          (markEventSet (s.ta.events.set eid { ev with value := some r }) eid)[e]? =
            s.ta.events[e]? := by
        intro e he
        rw [markEventSet_getElem_ne _ eid e (fun h2 => he h2.symm)]
        exact List.getElem?_set_ne (fun h2 => he h2.symm)
      have hg2len : (markEventSet (s.ta.events.set eid { ev with value := some r }) eid).length =
          s.ta.events.length := by
        rw [markEventSet_length, hsetlen]
      have hinj : ∀ (k : Nat), alookup s.ta.map k = some eid → k = th.rid := by
        intro k hk
        obtain ⟨ev2, hg2, hk2⟩ := hreg.2 k eid hk
        rw [hevg] at hg2
        injection hg2 with hg3
        rw [hg3] at hevk
        rw [← hk2, hevk]
      refine ⟨⟨nodup_aremove _ _ hreg.1, ?_⟩, ?_, hcache, ?_, ?_⟩
      · intro k e hk
        have hkr : k ≠ th.rid := by
          intro hcon
          rw [hcon, alookup_aremove_self _ _ hreg.1] at hk
          exact absurd hk (by simp)
        rw [alookup_aremove_ne _ _ _ hkr] at hk
        obtain ⟨ev2, hg2, hkey2⟩ := hreg.2 k e hk
        have hne : e ≠ eid := by
          intro hcon
          rw [hcon] at hk
          exact hkr (hinj k hk)
        exact ⟨ev2, by rw [hg2ne e hne]; exact hg2, hkey2⟩
      · intro e ev2 r2 hg hv
        by_cases he : e = eid
        · subst he
          rw [hg2self] at hg
          injection hg with hg3
          rw [← hg3] at hv
          simp only at hv
          injection hv with hv2
          rw [← hg3]
          simp only
          rw [← hv2, hr1, hevk]
        · rw [hg2ne e he] at hg
          exact hev e ev2 r2 hg hv
      · intro j th3 hj
        by_cases hji : j = i
        · subst hji
          rw [List.getElem?_set_self hlt] at hj
          cases hj
          exact ⟨fun e he => absurd he (by simp [producerEvent]),
                 fun e he => absurd he (by simp),
                 hr1⟩
        · rw [List.getElem?_set_ne (fun he => hji he.symm)] at hj
          have h3 := hthreads j th3 hj
          refine ⟨?_, ?_, h3.2.2⟩
          · intro e he
            obtain ⟨halk3, hlt3⟩ := h3.1 e he
            have hne : th3.rid ≠ th.rid := by
              intro hcon
              rw [hcon, halk] at halk3
              injection halk3 with halk4
              exact hdist j i th3 th e eid hj hth he (by rw [hph]; rfl) hji halk4.symm
            constructor
            · rw [alookup_aremove_ne _ _ _ hne]
              exact halk3
            · rw [hg2len]
              exact hlt3
          · intro e he
            obtain ⟨ev3, hg3, hk3⟩ := h3.2.1 e he
            by_cases hee : e = eid
            · subst hee
              rw [hevg] at hg3
              injection hg3 with hg4
              refine ⟨⟨ev.key, some r, true⟩, hg2self, ?_⟩
              rw [← hk3, hg4]
            · exact ⟨ev3, by rw [hg2ne e hee]; exact hg3, hk3⟩
      · intro a b tha thb ea eb ha hb hea heb hab
        by_cases hai : a = i
        · subst hai
          rw [List.getElem?_set_self hlt] at ha
          cases ha
          exact absurd hea (by simp [producerEvent])
        · rw [List.getElem?_set_ne (fun he => hai he.symm)] at ha
          by_cases hbi : b = i
          · subst hbi
            rw [List.getElem?_set_self hlt] at hb
            cases hb
            exact absurd heb (by simp [producerEvent])
          · rw [List.getElem?_set_ne (fun he => hbi he.symm)] at hb
            exact hdist a b tha thb ea eb ha hb hea heb hab
    | waiting eid =>
      cases hevg : s.ta.events[eid]? with
      | none =>
        unfold stepThread at hs
        rw [hth] at hs
        simp [hph, hevg] at hs
      | some ev =>
        cases hset : ev.isSet with
        | false =>
          unfold stepThread at hs
          rw [hth] at hs
          simp [hph, hevg, hset] at hs
        | true =>
          have hstep : stepThread fetchOk s i =
              some { s with threads := s.threads.set i { th with phase := .done ev.value } } := by
            unfold stepThread
            rw [hth]
            simp [hph, hevg, hset]
          rw [hstep] at hs
          injection hs with hs2
          subst hs2
          have hkey : ev.key = th.rid := by
            obtain ⟨ev2, hg2, hk2⟩ := hthOK.2.1 eid (by rw [hph])
            rw [hevg] at hg2
            injection hg2 with hg3
            rw [← hg3] at hk2
            exact hk2
          have hval : PhaseVal th.rid (.done ev.value) := by
            cases hv : ev.value with
            | none => trivial
            | some r =>
              have h2 := hev eid ev r hevg hv
              show r.1 = th.rid
              rw [h2, hkey]
          exact FInv_update s i th _ s.cache s.fetchCount hth
            ⟨hreg, hev, hcache, hthreads, hdist⟩
            ⟨fun e he => absurd he (by simp [producerEvent]),
             fun e he => absurd he (by simp),
             hval⟩
            (Or.inl rfl) hcache
    | done r =>
      unfold stepThread at hs
      rw [hth] at hs
      simp [hph] at hs
    | raised =>
      unfold stepThread at hs
      rw [hth] at hs
      simp [hph] at hs

theorem FInv_reach (fetchOk : Nat → Bool) (rids : List Nat) (s : FState)
    (h : Reach fetchOk rids s) : FInv s := by
  induction h with
  | init => exact FInv_init rids
  | step h2 hs ih => exact FInv_step _ _ _ _ hs ih

/-- C1 as amended: in every reachable state of the managed-release facade,
`get_release_managed_noblock` is exactly the cache lookup, and the step of
a thread at the cache check touches neither the cache, the register, nor
the fetch counter — it returns the cached release when present and falls
through to the miss path otherwise; network fetches for the same release
id are serialized: no two distinct threads are simultaneously in the
fetching phase for one id (at most one fetch in flight per id at any
time); and every caller that completes returns a release carrying the
requested id — but two callers that both saw the cache empty may fetch in
sequence and return distinct instances, so object identity across callers
does not hold. -/
theorem release_managed_fetch_serialized (fetchOk : Nat → Bool) (rids : List Nat)
    (s : FState) (h : Reach fetchOk rids s) :
    (∀ (rid : Nat), get_release_managed_noblock s rid = alookup s.cache rid)
    ∧ (∀ (i : Nat) (th : FThread), s.threads[i]? = some th → th.phase = .start →
        stepThread fetchOk s i =
          some { s with threads := s.threads.set i (FThread.mk th.rid
            (noblockPhase (get_release_managed_noblock s th.rid))) })
    ∧ (∀ (i j : Nat) (thi thj : FThread) (ei ej : Nat),
        s.threads[i]? = some thi → s.threads[j]? = some thj →
        thi.phase = .fetching ei → thj.phase = .fetching ej →
        thi.rid = thj.rid → i = j)
    ∧ (∀ (i : Nat) (th : FThread) (r : Release),
        s.threads[i]? = some th → th.phase = .done (some r) → r.1 = th.rid) := by
  have hInv := FInv_reach fetchOk rids s h
  obtain ⟨hreg, hev, hcache, hthreads, hdist⟩ := hInv
  refine ⟨fun rid => rfl, ?_, ?_, ?_⟩
  · intro i th hth hph
    unfold stepThread
    rw [hth]
    cases hc : alookup s.cache th.rid <;>
      simp [hph, get_release_managed_noblock, noblockPhase, hc]
  · intro i j thi thj ei ej hi hj hpi hpj hrid
    by_contra hne
    have hOKi := (hthreads i thi hi).1 ei (by rw [hpi]; rfl)
    have hOKj := (hthreads j thj hj).1 ej (by rw [hpj]; rfl)
    have heq : ei = ej := by
      have h2 := hOKi.1
      rw [hrid, hOKj.1] at h2
      injection h2 with h3
      exact h3.symm
    exact hdist i j thi thj ei ej hi hj (by rw [hpi]; rfl) (by rw [hpj]; rfl) hne heq
  · intro i th r hth hph
    have h2 := (hthreads i th hth).2.2
    rw [hph] at h2
    exact h2

/-- Witness for C1 as amended: along the concrete run in which caller 0
completes its managed fetch of release 7 while caller 1 has not started,
the reached state satisfies the theorem: the no-block read is the cache
lookup, and the completed caller returned a release with id 7. -/
theorem release_managed_fetch_serialized_witness :
    get_release_managed_noblock
      ⟨[(7, (7, 0))], ⟨[], [⟨7, some (7, 0), true⟩]⟩, 1,
       [⟨7, .done (some (7, 0))⟩, ⟨7, .start⟩]⟩ 7 =
      alookup [(7, ((7 : Nat), (0 : Nat)))] 7
    ∧ ((7 : Nat), (0 : Nat)).1 = 7 := by
  have h0 : Reach (fun _ => true) [7, 7] (initFState [7, 7]) := Reach.init
  have h1 : Reach (fun _ => true) [7, 7]
      ⟨[], ⟨[], []⟩, 0, [⟨7, .gotMiss⟩, ⟨7, .start⟩]⟩ :=
    Reach.step h0 (show stepThread (fun _ => true) (initFState [7, 7]) 0 =
      some ⟨[], ⟨[], []⟩, 0, [⟨7, .gotMiss⟩, ⟨7, .start⟩]⟩ by decide)
  have h2 : Reach (fun _ => true) [7, 7]
      ⟨[], ⟨[(7, 0)], [⟨7, none, false⟩]⟩, 0, [⟨7, .fetching 0⟩, ⟨7, .start⟩]⟩ :=
    Reach.step h1 (show stepThread (fun _ => true)
        ⟨[], ⟨[], []⟩, 0, [⟨7, .gotMiss⟩, ⟨7, .start⟩]⟩ 0 =
      some ⟨[], ⟨[(7, 0)], [⟨7, none, false⟩]⟩, 0, [⟨7, .fetching 0⟩, ⟨7, .start⟩]⟩ by decide)
  have h3 : Reach (fun _ => true) [7, 7]
      ⟨[], ⟨[(7, 0)], [⟨7, none, false⟩]⟩, 1,
       [⟨7, .inserting 0 (7, 0)⟩, ⟨7, .start⟩]⟩ :=
    Reach.step h2 (show stepThread (fun _ => true)
        ⟨[], ⟨[(7, 0)], [⟨7, none, false⟩]⟩, 0, [⟨7, .fetching 0⟩, ⟨7, .start⟩]⟩ 0 =
      some ⟨[], ⟨[(7, 0)], [⟨7, none, false⟩]⟩, 1,
        [⟨7, .inserting 0 (7, 0)⟩, ⟨7, .start⟩]⟩ by decide)
  have h4 : Reach (fun _ => true) [7, 7]
      ⟨[(7, (7, 0))], ⟨[(7, 0)], [⟨7, none, false⟩]⟩, 1,
       [⟨7, .publishing 0 (7, 0)⟩, ⟨7, .start⟩]⟩ :=
    Reach.step h3 (show stepThread (fun _ => true)
        ⟨[], ⟨[(7, 0)], [⟨7, none, false⟩]⟩, 1,
         [⟨7, .inserting 0 (7, 0)⟩, ⟨7, .start⟩]⟩ 0 =
      some ⟨[(7, (7, 0))], ⟨[(7, 0)], [⟨7, none, false⟩]⟩, 1,
        [⟨7, .publishing 0 (7, 0)⟩, ⟨7, .start⟩]⟩ by decide)
  have h5 : Reach (fun _ => true) [7, 7]
      ⟨[(7, (7, 0))], ⟨[], [⟨7, some (7, 0), true⟩]⟩, 1,
       [⟨7, .done (some (7, 0))⟩, ⟨7, .start⟩]⟩ :=
    Reach.step h4 (show stepThread (fun _ => true)
        ⟨[(7, (7, 0))], ⟨[(7, 0)], [⟨7, none, false⟩]⟩, 1,
         [⟨7, .publishing 0 (7, 0)⟩, ⟨7, .start⟩]⟩ 0 =
      some ⟨[(7, (7, 0))], ⟨[], [⟨7, some (7, 0), true⟩]⟩, 1,
        [⟨7, .done (some (7, 0))⟩, ⟨7, .start⟩]⟩ by decide)
  have h := release_managed_fetch_serialized (fun _ => true) [7, 7] _ h5
  exact ⟨h.1 7, h.2.2.2 0 ⟨7, .done (some (7, 0))⟩ (7, 0) rfl rfl⟩

/-- C1 counterexample: two concurrent callers for release id 7, both
starting with the id absent from the cache, can interleave so that caller
0 checks the cache, caller 1 then runs its whole fetch to completion, and
caller 0 resumes, finds the register empty, and performs a second fetch:
the run ends with 2 underlying fetches and the callers holding distinct
release instances (fetch 1 and fetch 0), not the identical entity. -/
theorem release_managed_distinct_instances :
    (runTrace (fun _ => true) (initFState [7, 7]) [0, 1, 1, 1, 1, 1, 0, 0, 0, 0]).map
        (fun s => (s.threads.map (fun t => (t.rid, t.phase)), s.fetchCount)) =
      some ([(7, .done (some (7, 1))), (7, .done (some (7, 0)))], 2)
    ∧ Phase.done (some (7, 1)) ≠ Phase.done (some (7, 0)) := by
  refine ⟨?_, ?_⟩
  · rfl
  · decide

/-- C3: when the producer's underlying fetch raises, the exception
propagates out of `_get_release_managed` without publishing: in the
concrete run two callers both miss the cache, caller 0 becomes the
producer and its fetch fails; the final state keeps key 7 registered to
the unset event 0, the waiter is blocked on it, and neither thread has
any enabled step — the waiter blocks forever and no retry is possible,
contradicting the claimed failure propagation and key removal. -/
theorem release_managed_fetch_failure_stuck :
    (runTrace (fun _ => false) (initFState [7, 7]) [0, 0, 1, 1, 0]).map
        (fun s => (s.threads.map (fun t => t.phase), alookup s.ta.map 7,
                   s.ta.events.map (fun e => (e.key, e.value, e.isSet)), s.fetchCount)) =
      some ([.raised, .waiting 0], some 0, [(7, none, false)], 1)
    ∧ (runTrace (fun _ => false) (initFState [7, 7]) [0, 0, 1, 1, 0]).bind
        (fun s => stepThread (fun _ => false) s 0) = none
    ∧ (runTrace (fun _ => false) (initFState [7, 7]) [0, 0, 1, 1, 0]).bind
        (fun s => stepThread (fun _ => false) s 1) = none := by
  refine ⟨?_, ?_, ?_⟩
  · rfl
  · rfl
  · rfl
